import Mathlib

/-
Verification of the Chalet Manager reporting dashboard
(src/src/app/dashboard/page.tsx, src/src/middleware.ts,
src/src/app/expenses/page.tsx and the income ledger page).

The dashboard stores calendar dates as ISO-8601 `YYYY-MM-DD` strings and
turns them into JavaScript `Date` objects (UTC midnight).  Here a date is
the triple (year, month, day); comparison of ISO strings and of `Date`
timestamps both coincide with lexicographic comparison of the triples for
well-formed calendar dates, which is how `LE`/`LT` below are defined.
`setMonth` on a JS `Date` does not clamp the day-of-month: a day past the
end of the target month rolls over into the following month
(e.g. setMonth of Jan 31 to February yields Mar 2 or Mar 3).  `normDay`
models that normalization.
-/

structure CalDate where
  year : Nat
  month : Nat
  day : Nat
deriving DecidableEq, Repr

/-- Timestamp order of JS Dates at UTC midnight, i.e. lexicographic order
on (year, month, day); identical to ISO-string order for well-formed dates. -/
def CalDate.le (a b : CalDate) : Prop :=
  a.year < b.year ∨ (a.year = b.year ∧ (a.month < b.month ∨ (a.month = b.month ∧ a.day ≤ b.day)))

def CalDate.lt (a b : CalDate) : Prop :=
  a.year < b.year ∨ (a.year = b.year ∧ (a.month < b.month ∨ (a.month = b.month ∧ a.day < b.day)))

instance : LE CalDate := ⟨CalDate.le⟩

instance : LT CalDate := ⟨CalDate.lt⟩

instance (a b : CalDate) : Decidable (a ≤ b) := by
  show Decidable (CalDate.le a b); unfold CalDate.le; infer_instance

instance (a b : CalDate) : Decidable (a < b) := by
  show Decidable (CalDate.lt a b); unfold CalDate.lt; infer_instance

def isLeapYear (y : Nat) : Bool :=
  (y % 4 == 0 && y % 100 != 0) || y % 400 == 0

/-- Number of days of month `m` (1..12) in year `y`, per the Gregorian
calendar used by JS `Date`. -/
def daysInMonth (y m : Nat) : Nat :=
  if m = 2 then (if isLeapYear y then 29 else 28)
  else if m = 4 ∨ m = 6 ∨ m = 9 ∨ m = 11 then 30
  else 31

/-- JS `Date` field normalization for a day-of-month that may exceed the
month length (as produced by `setMonth`): a day at most 31 overflows into
the following month at most once. -/
def normDay (y m d : Nat) : CalDate :=
  if d ≤ daysInMonth y m then ⟨y, m, d⟩
  else
    let i := y * 12 + m
    ⟨i / 12, i % 12 + 1, d - daysInMonth y m⟩

/-- `currentDate.setMonth(currentDate.getMonth() + 1)` of the bucket
seeding loop: advance one JS calendar month, day-of-month preserved up to
overflow normalization. -/
def jsNextMonth (dt : CalDate) : CalDate :=
  let i := dt.year * 12 + dt.month
  normDay (i / 12) (i % 12 + 1) dt.day

/-- `d.setMonth(d.getMonth() - k)`: move `k` JS calendar months back,
day-of-month preserved up to overflow normalization. -/
def jsSetMonthSub (dt : CalDate) (k : Nat) : CalDate :=
  let j := dt.year * 12 + (dt.month - 1) - k
  normDay (j / 12) (j % 12 + 1) dt.day

/-- The month index `year*12 + (month-1)`; `YYYY-MM` keys (the first 7
characters of an ISO date) compare lexicographically exactly as these
indices compare for 4-digit years. -/
def monthKeyOf (dt : CalDate) : Nat := dt.year * 12 + (dt.month - 1)

/-- A well-formed calendar date as produced by the date inputs and the
datastore. -/
def ValidDate (dt : CalDate) : Prop :=
  1 ≤ dt.year ∧ 1 ≤ dt.month ∧ dt.month ≤ 12 ∧ 1 ≤ dt.day ∧ dt.day ≤ daysInMonth dt.year dt.month

instance (dt : CalDate) : Decidable (ValidDate dt) := by
  unfold ValidDate; infer_instance

/- Record types, from src/unnamed/part_003 (database.types.ts).  The
`amount` column is a decimal currency value; it is embedded as a rational
so that sums are exact. -/

structure Income where
  id : String
  created_at : String
  date : CalDate
  amount : ℚ
  description : String
  category : String

structure Expense where
  id : String
  created_at : String
  date : CalDate
  amount : ℚ
  description : String
  category : String

/-- The `.gte('date', startDate).lte('date', endDate)` filter of the two
dashboard range queries. -/
def inRange (s e d : CalDate) : Bool := decide (s ≤ d) && decide (d ≤ e)

/-- Transaction Fetcher for the income collection: rows whose date lies in
the range, ordered by date descending (stable). -/
def fetchIncome (store : List Income) (s e : CalDate) : List Income :=
  (store.filter (fun r => inRange s e r.date)).mergeSort (fun a b => decide (b.date ≤ a.date))

/-- Transaction Fetcher for the expenses collection. -/
def fetchExpenses (store : List Expense) (s e : CalDate) : List Expense :=
  (store.filter (fun r => inRange s e r.date)).mergeSort (fun a b => decide (b.date ≤ a.date))

/-- `incomeData?.reduce((sum, item) => sum + item.amount, 0) || 0`. -/
def totalIncome (incomeData : List Income) : ℚ :=
  incomeData.foldl (fun s item => s + item.amount) 0

/-- `expenseData?.reduce((sum, item) => sum + item.amount, 0) || 0`. -/
def totalExpenses (expenseData : List Expense) : ℚ :=
  expenseData.foldl (fun s item => s + item.amount) 0

/-- `const netProfit = totalIncome - totalExpenses`. -/
def netProfit (incomeData : List Income) (expenseData : List Expense) : ℚ :=
  totalIncome incomeData - totalExpenses expenseData

lemma foldl_add_amount_income (l : List Income) (c : ℚ) :
    l.foldl (fun s item => s + item.amount) c = c + (l.map Income.amount).sum := by
  induction l generalizing c with
  | nil => simp
  | cons r rest ih => simp [List.foldl_cons, ih, add_assoc]

lemma foldl_add_amount_expense (l : List Expense) (c : ℚ) :
    l.foldl (fun s item => s + item.amount) c = c + (l.map Expense.amount).sum := by
  induction l generalizing c with
  | nil => simp
  | cons r rest ih => simp [List.foldl_cons, ih, add_assoc]

lemma totalIncome_eq_sum (l : List Income) : totalIncome l = (l.map Income.amount).sum := by
  simpa using foldl_add_amount_income l 0

lemma totalExpenses_eq_sum (l : List Expense) :
    totalExpenses l = (l.map Expense.amount).sum := by
  simpa using foldl_add_amount_expense l 0

lemma totalIncome_fetch (store : List Income) (s e : CalDate) :
    totalIncome (fetchIncome store s e)
      = ((store.filter (fun r => inRange s e r.date)).map Income.amount).sum := by
  rw [totalIncome_eq_sum, fetchIncome]
  exact List.Perm.sum_eq (List.Perm.map _ (List.mergeSort_perm _ _))

lemma totalExpenses_fetch (store : List Expense) (s e : CalDate) :
    totalExpenses (fetchExpenses store s e)
      = ((store.filter (fun r => inRange s e r.date)).map Expense.amount).sum := by
  rw [totalExpenses_eq_sum, fetchExpenses]
  exact List.Perm.sum_eq (List.Perm.map _ (List.mergeSort_perm _ _))

/-- C1: for every pair of fetched income and expense record lists the
aggregator's `totalIncome` and `totalExpenses` are the exact sums of
`amount` over the income and expense records restricted to the active date
range, and `netProfit` is always `totalIncome - totalExpenses`. -/
theorem aggregator_totals_exact (storeI : List Income) (storeE : List Expense) (s e : CalDate) :
    totalIncome (fetchIncome storeI s e)
        = ((storeI.filter (fun r => inRange s e r.date)).map Income.amount).sum
    ∧ totalExpenses (fetchExpenses storeE s e)
        = ((storeE.filter (fun r => inRange s e r.date)).map Expense.amount).sum
    ∧ ∀ (incomeData : List Income) (expenseData : List Expense),
        netProfit incomeData expenseData = totalIncome incomeData - totalExpenses expenseData :=
  ⟨totalIncome_fetch storeI s e, totalExpenses_fetch storeE s e, fun _ _ => rfl⟩

/- Recent transactions (dashboard lines 314-330).  JS `Array.prototype.sort`
with comparator `(a, b) => new Date(b.date).getTime() - new Date(a.date).getTime()`
is a stable sort into non-increasing date order; it is embedded as a stable
merge sort with the Boolean relation `b.date <= a.date`. -/

inductive TxType where
  | INCOME
  | EXPENSE
deriving DecidableEq, Repr

structure Transaction where
  id : String
  date : CalDate
  type : TxType
  amount : ℚ
  description : String

/-- Tagging of an income row (dashboard lines 315-321). -/
def incomeToTx (income : Income) : Transaction :=
  ⟨income.id, income.date, TxType.INCOME, income.amount, income.description⟩

/-- Tagging of an expense row (dashboard lines 322-328). -/
def expenseToTx (expense : Expense) : Transaction :=
  ⟨expense.id, expense.date, TxType.EXPENSE, expense.amount, expense.description⟩

/-- Comparator order of the recent-transactions sort: descending by date. -/
def txDateDesc (a b : Transaction) : Bool := decide (b.date ≤ a.date)

/-- `[...income.map(...), ...expense.map(...)].sort(byDateDesc).slice(0, 10)`. -/
def recentTransactions (incomeData : List Income) (expenseData : List Expense) :
    List Transaction :=
  ((incomeData.map incomeToTx ++ expenseData.map expenseToTx).mergeSort txDateDesc).take 10

lemma calDate_le_total (a b : CalDate) : a ≤ b ∨ b ≤ a := by
  show CalDate.le a b ∨ CalDate.le b a
  unfold CalDate.le
  omega

lemma calDate_le_trans {a b c : CalDate} (h1 : a ≤ b) (h2 : b ≤ c) : a ≤ c := by
  revert h1 h2
  show CalDate.le a b → CalDate.le b c → CalDate.le a c
  unfold CalDate.le
  omega

lemma txDateDesc_trans (a b c : Transaction) :
    txDateDesc a b = true → txDateDesc b c = true → txDateDesc a c = true := by
  simp only [txDateDesc, decide_eq_true_eq]
  exact fun h1 h2 => calDate_le_trans h2 h1

lemma txDateDesc_total (a b : Transaction) : (txDateDesc a b || txDateDesc b a) = true := by
  simp only [txDateDesc, Bool.or_eq_true, decide_eq_true_eq]
  exact (calDate_le_total b.date a.date).elim Or.inl Or.inr

/-- C4: `recentTransactions` has length `min 10 n` for `n` fetched records
in total, is sorted non-increasing by date, and every element is a tagged
income or expense record from the fetched lists. -/
theorem recentTransactions_spec (incomeData : List Income) (expenseData : List Expense) :
    (recentTransactions incomeData expenseData).length
        = min 10 (incomeData.length + expenseData.length)
    ∧ (recentTransactions incomeData expenseData).Pairwise (fun a b => b.date ≤ a.date)
    ∧ ∀ t ∈ recentTransactions incomeData expenseData,
        (∃ i ∈ incomeData, t = incomeToTx i) ∨ (∃ x ∈ expenseData, t = expenseToTx x) := by
  refine ⟨?_, ?_, ?_⟩
  · simp [recentTransactions, List.length_take, List.length_mergeSort]
  · have hs := List.sorted_mergeSort txDateDesc_trans txDateDesc_total
      (incomeData.map incomeToTx ++ expenseData.map expenseToTx)
    have hp : (List.mergeSort (incomeData.map incomeToTx ++ expenseData.map expenseToTx)
        txDateDesc).Pairwise (fun a b : Transaction => b.date ≤ a.date) := by
      refine hs.imp ?_
      intro a b h
      simpa [txDateDesc] using h
    exact hp.sublist (List.take_sublist _ _)
  · intro t ht
    have h1 : t ∈ (incomeData.map incomeToTx ++ expenseData.map expenseToTx).mergeSort
        txDateDesc := List.mem_of_mem_take ht
    have h2 : t ∈ incomeData.map incomeToTx ++ expenseData.map expenseToTx :=
      (List.mergeSort_perm _ _).mem_iff.mp h1
    rcases List.mem_append.mp h2 with h | h
    · rcases List.mem_map.mp h with ⟨i, hi, hit⟩
      exact Or.inl ⟨i, hi, hit.symm⟩
    · rcases List.mem_map.mp h with ⟨x, hx, hxt⟩
      exact Or.inr ⟨x, hx, hxt.symm⟩

/- Monthly aggregation (dashboard lines 332-372).  `monthlyDataMap` is a JS
`Map` in insertion order, embedded as an association list; `Map.set`
replaces the entry when the key is present and appends otherwise. -/

structure Bucket where
  income : ℚ
  expenses : ℚ
deriving DecidableEq, Repr

def mapGet (m : List (Nat × Bucket)) (k : Nat) : Option Bucket :=
  (m.find? (fun p => p.1 == k)).map Prod.snd

def mapSet (m : List (Nat × Bucket)) (k : Nat) (v : Bucket) : List (Nat × Bucket) :=
  if m.any (fun p => p.1 == k) then m.map (fun p => if p.1 == k then (k, v) else p)
  else m ++ [(k, v)]

/-- The month-initialization `while (currentDate <= endDate)` loop, with
explicit fuel; each iteration seeds the current date's `YYYY-MM` key with
zero totals and advances `currentDate` by `setMonth(getMonth() + 1)`. -/
def seedLoopF : Nat → CalDate → CalDate → List (Nat × Bucket) → List (Nat × Bucket)
  | 0, _, _, acc => acc
  | fuel + 1, cur, e, acc =>
    if cur ≤ e then seedLoopF fuel (jsNextMonth cur) e (mapSet acc (monthKeyOf cur) ⟨0, 0⟩)
    else acc

/-- Pre-seeded buckets for a date range.  The fuel bounds the number of
loop iterations; since every step advances the month index by at least one
while the guard keeps it at most `monthKeyOf e`, the loop stops on its
guard before the fuel runs out. -/
def initBuckets (s e : CalDate) : List (Nat × Bucket) :=
  seedLoopF (monthKeyOf e + 1 - monthKeyOf s) s e []

/-- `incomeData?.forEach(...)` accumulation (dashboard lines 346-354): look
the record's month key up (defaulting to zero totals), add the amount to
the `income` component, and write the bucket back with `Map.set`. -/
def accIncome (m : List (Nat × Bucket)) (incomeData : List Income) : List (Nat × Bucket) :=
  incomeData.foldl (fun mp income =>
    let k := monthKeyOf income.date
    let monthData := (mapGet mp k).getD ⟨0, 0⟩
    mapSet mp k ⟨monthData.income + income.amount, monthData.expenses⟩) m

/-- `expenseData?.forEach(...)` accumulation (dashboard lines 356-364). -/
def accExpense (m : List (Nat × Bucket)) (expenseData : List Expense) : List (Nat × Bucket) :=
  expenseData.foldl (fun mp expense =>
    let k := monthKeyOf expense.date
    let monthData := (mapGet mp k).getD ⟨0, 0⟩
    mapSet mp k ⟨monthData.income, monthData.expenses + expense.amount⟩) m

/-- `Array.from(monthlyDataMap.entries()).map(...).sort((a, b) =>
a.month.localeCompare(b.month))`: the map's entries sorted ascending by
month key. -/
def monthlyData (s e : CalDate) (incomeData : List Income) (expenseData : List Expense) :
    List (Nat × Bucket) :=
  (accExpense (accIncome (initBuckets s e) incomeData) expenseData).mergeSort
    (fun a b => a.1 ≤ b.1)

def keysOf (m : List (Nat × Bucket)) : List Nat := m.map Prod.fst

def bucketAt (m : List (Nat × Bucket)) (k : Nat) : Bucket := (mapGet m k).getD ⟨0, 0⟩

/-- Sum of the amounts of the income records whose `YYYY-MM` equals a key. -/
def incomeSumAt (k : Nat) (l : List Income) : ℚ :=
  ((l.filter (fun r => monthKeyOf r.date == k)).map Income.amount).sum

/-- Sum of the amounts of the expense records whose `YYYY-MM` equals a key. -/
def expenseSumAt (k : Nat) (l : List Expense) : ℚ :=
  ((l.filter (fun r => monthKeyOf r.date == k)).map Expense.amount).sum

lemma find?_map_replace (m : List (Nat × Bucket)) (k : Nat) (v : Bucket) :
    (m.map (fun p => if p.1 == k then (k, v) else p)).find? (fun p => p.1 == k)
      = (m.find? (fun p => p.1 == k)).map (fun _ => (k, v)) := by
  induction m with
  | nil => rfl
  | cons p t ih =>
    by_cases h : p.1 = k
    · have hb : (p.1 == k) = true := by simpa using h
      rw [List.map_cons, if_pos hb,
        @List.find?_cons_of_pos _ (fun q => q.1 == k) (k, v) _ (by simp),
        @List.find?_cons_of_pos _ (fun q => q.1 == k) p t hb]
      rfl
    · have hb : (p.1 == k) = false := by simpa using h
      rw [List.map_cons, if_neg (by simp [hb]),
        @List.find?_cons_of_neg _ (fun q => q.1 == k) p _ (by simp [hb]),
        @List.find?_cons_of_neg _ (fun q => q.1 == k) p t (by simp [hb])]
      exact ih

lemma find?_map_replace_ne (m : List (Nat × Bucket)) (k k' : Nat) (v : Bucket)
    (hne : k' ≠ k) :
    (m.map (fun p => if p.1 == k then (k, v) else p)).find? (fun p => p.1 == k')
      = m.find? (fun p => p.1 == k') := by
  induction m with
  | nil => rfl
  | cons p t ih =>
    by_cases h : p.1 = k
    · have hb : (p.1 == k) = true := by simpa using h
      have hb2 : ((k, v).1 == k') = false := by simpa using Ne.symm hne
      have hb3 : (p.1 == k') = false := by rw [h]; simpa using Ne.symm hne
      rw [List.map_cons, if_pos hb,
        @List.find?_cons_of_neg _ (fun q => q.1 == k') (k, v) _ (by simp [hb2]),
        @List.find?_cons_of_neg _ (fun q => q.1 == k') p t (by simp [hb3])]
      exact ih
    · have hb : (p.1 == k) = false := by simpa using h
      by_cases h2 : p.1 = k'
      · have hb2 : (p.1 == k') = true := by simpa using h2
        rw [List.map_cons, if_neg (by simp [hb]),
          @List.find?_cons_of_pos _ (fun q => q.1 == k') p _ hb2,
          @List.find?_cons_of_pos _ (fun q => q.1 == k') p t hb2]
      · have hb2 : (p.1 == k') = false := by simpa using h2
        rw [List.map_cons, if_neg (by simp [hb]),
          @List.find?_cons_of_neg _ (fun q => q.1 == k') p _ (by simp [hb2]),
          @List.find?_cons_of_neg _ (fun q => q.1 == k') p t (by simp [hb2])]
        exact ih

lemma any_key_iff (m : List (Nat × Bucket)) (k : Nat) :
    m.any (fun p => p.1 == k) = true ↔ k ∈ keysOf m := by
  simp [List.any_eq_true, beq_iff_eq, keysOf, List.mem_map]

lemma mapGet_mapSet (m : List (Nat × Bucket)) (k k' : Nat) (v : Bucket) :
    mapGet (mapSet m k v) k' = if k' = k then some v else mapGet m k' := by
  unfold mapSet
  by_cases hany : m.any (fun p => p.1 == k) = true
  · rw [if_pos hany]
    by_cases hk : k' = k
    · subst hk
      rw [if_pos rfl]
      unfold mapGet
      rw [find?_map_replace]
      have hsome : (m.find? (fun p => p.1 == k')).isSome = true := by
        rw [List.find?_isSome]
        simpa [List.any_eq_true] using hany
      rcases Option.isSome_iff_exists.mp hsome with ⟨p, hp⟩
      rw [hp]; rfl
    · rw [if_neg hk]
      unfold mapGet
      rw [find?_map_replace_ne m k k' v hk]
  · rw [if_neg hany]
    by_cases hk : k' = k
    · subst hk
      rw [if_pos rfl]
      unfold mapGet
      rw [List.find?_append]
      have hnone : m.find? (fun p => p.1 == k') = none := by
        rw [List.find?_eq_none]
        intro x hx hpx
        exact hany (List.any_eq_true.mpr ⟨x, hx, hpx⟩)
      rw [hnone]
      simp [List.find?_cons]
    · rw [if_neg hk]
      unfold mapGet
      rw [List.find?_append]
      have h1 : List.find? (fun p => p.1 == k') [(k, v)] = none := by
        simp [List.find?_cons, Ne.symm hk]
      rw [h1]
      cases m.find? (fun p => p.1 == k') <;> rfl

lemma keys_mapSet (m : List (Nat × Bucket)) (k : Nat) (v : Bucket) :
    keysOf (mapSet m k v)
      = if m.any (fun p => p.1 == k) then keysOf m else keysOf m ++ [k] := by
  unfold mapSet
  by_cases hany : m.any (fun p => p.1 == k) = true
  · rw [if_pos hany, if_pos hany]
    unfold keysOf
    rw [List.map_map]
    refine List.map_congr_left ?_
    intro p _
    by_cases h : p.1 = k
    · simp [h]
    · simp [h]
  · rw [if_neg hany, if_neg hany]
    simp [keysOf]

lemma mem_keys_mapSet (m : List (Nat × Bucket)) (k k' : Nat) (v : Bucket) :
    k' ∈ keysOf (mapSet m k v) ↔ k' ∈ keysOf m ∨ k' = k := by
  rw [keys_mapSet]
  by_cases hany : m.any (fun p => p.1 == k) = true
  · rw [if_pos hany]
    constructor
    · exact Or.inl
    · rintro (h | h)
      · exact h
      · subst h; exact (any_key_iff m k').mp hany
  · rw [if_neg hany]
    simp

lemma nodup_keys_mapSet (m : List (Nat × Bucket)) (k : Nat) (v : Bucket)
    (hn : (keysOf m).Nodup) : (keysOf (mapSet m k v)).Nodup := by
  rw [keys_mapSet]
  by_cases hany : m.any (fun p => p.1 == k) = true
  · rwa [if_pos hany]
  · rw [if_neg hany]
    refine List.Nodup.append hn (List.nodup_singleton k) ?_
    intro x hx hxk
    apply hany
    rw [any_key_iff]
    rcases List.mem_singleton.mp hxk with rfl
    exact hx

lemma length_mapSet_ge (m : List (Nat × Bucket)) (k : Nat) (v : Bucket) :
    m.length ≤ (mapSet m k v).length := by
  unfold mapSet
  by_cases hany : m.any (fun p => p.1 == k) = true
  · rw [if_pos hany, List.length_map]
  · rw [if_neg hany, List.length_append]
    omega

lemma bucketAt_mapSet (m : List (Nat × Bucket)) (k k' : Nat) (v : Bucket) :
    bucketAt (mapSet m k v) k' = if k' = k then v else bucketAt m k' := by
  unfold bucketAt
  rw [mapGet_mapSet]
  by_cases h : k' = k
  · rw [if_pos h, if_pos h]; rfl
  · rw [if_neg h, if_neg h]

lemma mapGet_eq_of_mem (m : List (Nat × Bucket)) (k : Nat) (b : Bucket)
    (hn : (keysOf m).Nodup) (hm : (k, b) ∈ m) : mapGet m k = some b := by
  induction m with
  | nil => cases hm
  | cons p t ih =>
    rcases List.mem_cons.mp hm with rfl | hmt
    · unfold mapGet
      rw [@List.find?_cons_of_pos _ (fun q => q.1 == k) (k, b) t (by simp)]
      rfl
    · have hk : k ∈ keysOf t := List.mem_map.mpr ⟨(k, b), hmt, rfl⟩
      have hpk : ¬ p.1 = k := by
        intro h
        have : p.1 ∈ keysOf t := h ▸ hk
        exact (List.nodup_cons.mp hn).1 this
      unfold mapGet
      rw [@List.find?_cons_of_neg _ (fun q => q.1 == k) p t (by simpa using hpk)]
      exact ih (List.nodup_cons.mp hn).2 hmt

lemma mem_of_mapGet_some (m : List (Nat × Bucket)) (k : Nat) (b : Bucket)
    (h : mapGet m k = some b) : (k, b) ∈ m := by
  unfold mapGet at h
  rcases Option.map_eq_some'.mp h with ⟨p, hp, hpb⟩
  have h1 : p.1 = k := by simpa using List.find?_some hp
  have h2 : p ∈ m := List.mem_of_find?_eq_some hp
  have : p = (k, b) := by
    cases p
    simp only [Prod.mk.injEq]
    exact ⟨h1, hpb⟩
  exact this ▸ h2

lemma mapGet_isSome_of_mem_keys (m : List (Nat × Bucket)) (k : Nat)
    (h : k ∈ keysOf m) : ∃ b, mapGet m k = some b := by
  have : (m.find? (fun p => p.1 == k)).isSome = true := by
    rw [List.find?_isSome]
    rcases List.mem_map.mp h with ⟨p, hp, hpk⟩
    exact ⟨p, hp, by simpa using hpk⟩
  rcases Option.isSome_iff_exists.mp this with ⟨p, hp⟩
  exact ⟨p.2, by unfold mapGet; rw [hp]; rfl⟩

lemma incomeSumAt_cons (k : Nat) (r : Income) (t : List Income) :
    incomeSumAt k (r :: t)
      = if monthKeyOf r.date = k then r.amount + incomeSumAt k t else incomeSumAt k t := by
  unfold incomeSumAt
  rw [List.filter_cons]
  by_cases h : monthKeyOf r.date = k
  · rw [if_pos (by simpa using h), if_pos h, List.map_cons, List.sum_cons]
  · rw [if_neg (by simpa using h), if_neg h]

lemma expenseSumAt_cons (k : Nat) (r : Expense) (t : List Expense) :
    expenseSumAt k (r :: t)
      = if monthKeyOf r.date = k then r.amount + expenseSumAt k t else expenseSumAt k t := by
  unfold expenseSumAt
  rw [List.filter_cons]
  by_cases h : monthKeyOf r.date = k
  · rw [if_pos (by simpa using h), if_pos h, List.map_cons, List.sum_cons]
  · rw [if_neg (by simpa using h), if_neg h]

lemma bucketAt_accIncome (l : List Income) (m : List (Nat × Bucket)) (k : Nat) :
    bucketAt (accIncome m l) k
      = ⟨(bucketAt m k).income + incomeSumAt k l, (bucketAt m k).expenses⟩ := by
  induction l generalizing m with
  | nil =>
    simp [accIncome, incomeSumAt]
  | cons r t ih =>
    have hstep : accIncome m (r :: t)
        = accIncome (mapSet m (monthKeyOf r.date)
            ⟨(bucketAt m (monthKeyOf r.date)).income + r.amount,
             (bucketAt m (monthKeyOf r.date)).expenses⟩) t := rfl
    rw [hstep, ih, incomeSumAt_cons, bucketAt_mapSet]
    by_cases h : k = monthKeyOf r.date
    · subst h
      rw [if_pos rfl, if_pos rfl]
      simp [add_assoc]
    · rw [if_neg h, if_neg (by omega)]

lemma bucketAt_accExpense (l : List Expense) (m : List (Nat × Bucket)) (k : Nat) :
    bucketAt (accExpense m l) k
      = ⟨(bucketAt m k).income, (bucketAt m k).expenses + expenseSumAt k l⟩ := by
  induction l generalizing m with
  | nil =>
    simp [accExpense, expenseSumAt]
  | cons r t ih =>
    have hstep : accExpense m (r :: t)
        = accExpense (mapSet m (monthKeyOf r.date)
            ⟨(bucketAt m (monthKeyOf r.date)).income,
             (bucketAt m (monthKeyOf r.date)).expenses + r.amount⟩) t := rfl
    rw [hstep, ih, expenseSumAt_cons, bucketAt_mapSet]
    by_cases h : k = monthKeyOf r.date
    · subst h
      rw [if_pos rfl, if_pos rfl]
      simp [add_assoc]
    · rw [if_neg h, if_neg (by omega)]

lemma daysInMonth_ge_28 (y m : Nat) : 28 ≤ daysInMonth y m := by
  unfold daysInMonth
  split
  · split <;> omega
  · split <;> omega

lemma daysInMonth_le_31 (y m : Nat) : daysInMonth y m ≤ 31 := by
  unfold daysInMonth
  split
  · split <;> omega
  · split <;> omega

lemma jsNextMonth_day1 (y m : Nat) (h1 : 1 ≤ m) (h12 : m ≤ 12) :
    ∃ y' m', jsNextMonth ⟨y, m, 1⟩ = ⟨y', m', 1⟩
      ∧ 1 ≤ m' ∧ m' ≤ 12 ∧ y' * 12 + (m' - 1) = y * 12 + (m - 1) + 1 := by
  unfold jsNextMonth normDay
  have hd : 1 ≤ daysInMonth ((y * 12 + m) / 12) ((y * 12 + m) % 12 + 1) := by
    have := daysInMonth_ge_28 ((y * 12 + m) / 12) ((y * 12 + m) % 12 + 1)
    omega
  rw [if_pos hd]
  refine ⟨(y * 12 + m) / 12, (y * 12 + m) % 12 + 1, rfl, by omega, by omega, by omega⟩

lemma day1_le_iff (y m : Nat) (e : CalDate) (h1 : 1 ≤ m) (h12 : m ≤ 12)
    (he1 : 1 ≤ e.month) (he12 : e.month ≤ 12) (hed : 1 ≤ e.day) :
    (⟨y, m, 1⟩ : CalDate) ≤ e ↔ y * 12 + (m - 1) ≤ monthKeyOf e := by
  show CalDate.le ⟨y, m, 1⟩ e ↔ _
  unfold CalDate.le monthKeyOf
  simp only
  omega

lemma monthKeyOf_le_of_le (a b : CalDate) (h12 : a.month ≤ 12) (hb1 : 1 ≤ b.month)
    (hle : a ≤ b) : monthKeyOf a ≤ monthKeyOf b := by
  have h : CalDate.le a b := hle
  unfold CalDate.le at h
  unfold monthKeyOf
  omega

lemma mem_mapSet_cases (m : List (Nat × Bucket)) (k : Nat) (v : Bucket)
    (p : Nat × Bucket) (hp : p ∈ mapSet m k v) : p ∈ m ∨ p.2 = v := by
  unfold mapSet at hp
  by_cases hany : m.any (fun q => q.1 == k) = true
  · rw [if_pos hany] at hp
    rcases List.mem_map.mp hp with ⟨q, hq, hqp⟩
    by_cases h : q.1 = k
    · right
      rw [← hqp, if_pos (by simpa using h)]
    · left
      rwa [← hqp, if_neg (by simpa using h)]
  · rw [if_neg hany] at hp
    rcases List.mem_append.mp hp with h | h
    · exact Or.inl h
    · right
      rcases List.mem_singleton.mp h with rfl
      rfl

lemma seedLoopF_values : ∀ (n : Nat) (cur e : CalDate) (acc : List (Nat × Bucket)),
    (∀ p ∈ acc, p.2 = (⟨0, 0⟩ : Bucket)) →
    ∀ p ∈ seedLoopF n cur e acc, p.2 = (⟨0, 0⟩ : Bucket) := by
  intro n
  induction n with
  | zero => intro cur e acc hacc; exact hacc
  | succ n ih =>
    intro cur e acc hacc p hp
    unfold seedLoopF at hp
    by_cases hg : cur ≤ e
    · rw [if_pos hg] at hp
      refine ih _ _ _ ?_ p hp
      intro q hq
      rcases mem_mapSet_cases _ _ _ q hq with h | h
      · exact hacc q h
      · exact h
    · rw [if_neg hg] at hp
      exact hacc p hp

lemma seedLoopF_nodup : ∀ (n : Nat) (cur e : CalDate) (acc : List (Nat × Bucket)),
    (keysOf acc).Nodup → (keysOf (seedLoopF n cur e acc)).Nodup := by
  intro n
  induction n with
  | zero => intro cur e acc hacc; exact hacc
  | succ n ih =>
    intro cur e acc hacc
    unfold seedLoopF
    by_cases hg : cur ≤ e
    · rw [if_pos hg]
      exact ih _ _ _ (nodup_keys_mapSet _ _ _ hacc)
    · rwa [if_neg hg]

lemma seedLoopF_length_ge : ∀ (n : Nat) (cur e : CalDate) (acc : List (Nat × Bucket)),
    acc.length ≤ (seedLoopF n cur e acc).length := by
  intro n
  induction n with
  | zero => intro cur e acc; exact Nat.le_refl _
  | succ n ih =>
    intro cur e acc
    unfold seedLoopF
    by_cases hg : cur ≤ e
    · rw [if_pos hg]
      exact Nat.le_trans (length_mapSet_ge _ _ _) (ih _ _ _)
    · rw [if_neg hg]

lemma seedLoopF_day1_keys : ∀ (n y m : Nat) (e : CalDate) (acc : List (Nat × Bucket)),
    1 ≤ m → m ≤ 12 → 1 ≤ e.month → e.month ≤ 12 → 1 ≤ e.day →
    n = monthKeyOf e + 1 - (y * 12 + (m - 1)) →
    (∀ j ∈ keysOf acc, j < y * 12 + (m - 1)) →
    keysOf (seedLoopF n ⟨y, m, 1⟩ e acc)
      = keysOf acc ++ List.range' (y * 12 + (m - 1)) n := by
  intro n
  induction n with
  | zero =>
    intro y m e acc _ _ _ _ _ _ _
    simp [seedLoopF]
  | succ n ih =>
    intro y m e acc h1 h12 he1 he12 hed hn hlt
    have hk0 : y * 12 + (m - 1) ≤ monthKeyOf e := by omega
    have hg : (⟨y, m, 1⟩ : CalDate) ≤ e := (day1_le_iff y m e h1 h12 he1 he12 hed).mpr hk0
    have hkey : monthKeyOf ⟨y, m, 1⟩ = y * 12 + (m - 1) := rfl
    have hnotmem : ¬ (acc.any (fun p => p.1 == y * 12 + (m - 1)) = true) := by
      intro h
      have := (any_key_iff acc _).mp h
      exact absurd (hlt _ this) (by omega)
    have hkeys' : keysOf (mapSet acc (y * 12 + (m - 1)) ⟨0, 0⟩)
        = keysOf acc ++ [y * 12 + (m - 1)] := by
      rw [keys_mapSet, if_neg hnotmem]
    rcases jsNextMonth_day1 y m h1 h12 with ⟨y', m', hnext, hm'1, hm'12, hkey'⟩
    show keysOf (seedLoopF (n + 1) ⟨y, m, 1⟩ e acc) = _
    unfold seedLoopF
    rw [if_pos hg, hkey, hnext]
    have hih := ih y' m' e (mapSet acc (y * 12 + (m - 1)) ⟨0, 0⟩) hm'1 hm'12 he1 he12 hed
      (by omega)
      (by
        intro j hj
        rw [hkeys'] at hj
        rcases List.mem_append.mp hj with h | h
        · have := hlt j h
          omega
        · rcases List.mem_singleton.mp h with rfl
          omega)
    rw [hih, hkeys', hkey']
    rw [List.range'_succ]
    simp

lemma accIncome_cons (m : List (Nat × Bucket)) (r : Income) (t : List Income) :
    accIncome m (r :: t)
      = accIncome (mapSet m (monthKeyOf r.date)
          ⟨(bucketAt m (monthKeyOf r.date)).income + r.amount,
           (bucketAt m (monthKeyOf r.date)).expenses⟩) t := rfl

lemma accExpense_cons (m : List (Nat × Bucket)) (r : Expense) (t : List Expense) :
    accExpense m (r :: t)
      = accExpense (mapSet m (monthKeyOf r.date)
          ⟨(bucketAt m (monthKeyOf r.date)).income,
           (bucketAt m (monthKeyOf r.date)).expenses + r.amount⟩) t := rfl

lemma nodup_keys_accIncome (l : List Income) : ∀ m : List (Nat × Bucket),
    (keysOf m).Nodup → (keysOf (accIncome m l)).Nodup := by
  induction l with
  | nil => intro m h; exact h
  | cons r t ih =>
    intro m h
    rw [accIncome_cons]
    exact ih _ (nodup_keys_mapSet _ _ _ h)

lemma nodup_keys_accExpense (l : List Expense) : ∀ m : List (Nat × Bucket),
    (keysOf m).Nodup → (keysOf (accExpense m l)).Nodup := by
  induction l with
  | nil => intro m h; exact h
  | cons r t ih =>
    intro m h
    rw [accExpense_cons]
    exact ih _ (nodup_keys_mapSet _ _ _ h)

lemma length_accIncome_ge (l : List Income) : ∀ m : List (Nat × Bucket),
    m.length ≤ (accIncome m l).length := by
  induction l with
  | nil => intro m; exact Nat.le_refl _
  | cons r t ih =>
    intro m
    rw [accIncome_cons]
    exact Nat.le_trans (length_mapSet_ge _ _ _) (ih _)

lemma length_accExpense_ge (l : List Expense) : ∀ m : List (Nat × Bucket),
    m.length ≤ (accExpense m l).length := by
  induction l with
  | nil => intro m; exact Nat.le_refl _
  | cons r t ih =>
    intro m
    rw [accExpense_cons]
    exact Nat.le_trans (length_mapSet_ge _ _ _) (ih _)

lemma mem_keys_accIncome_mono (l : List Income) : ∀ (m : List (Nat × Bucket)) (k : Nat),
    k ∈ keysOf m → k ∈ keysOf (accIncome m l) := by
  induction l with
  | nil => intro m k h; exact h
  | cons r t ih =>
    intro m k h
    rw [accIncome_cons]
    exact ih _ _ ((mem_keys_mapSet _ _ _ _).mpr (Or.inl h))

lemma mem_keys_accExpense_mono (l : List Expense) : ∀ (m : List (Nat × Bucket)) (k : Nat),
    k ∈ keysOf m → k ∈ keysOf (accExpense m l) := by
  induction l with
  | nil => intro m k h; exact h
  | cons r t ih =>
    intro m k h
    rw [accExpense_cons]
    exact ih _ _ ((mem_keys_mapSet _ _ _ _).mpr (Or.inl h))

lemma mem_keys_accIncome_rec (l : List Income) : ∀ (m : List (Nat × Bucket)) (r : Income),
    r ∈ l → monthKeyOf r.date ∈ keysOf (accIncome m l) := by
  induction l with
  | nil => intro m r h; cases h
  | cons r' t ih =>
    intro m r h
    rw [accIncome_cons]
    rcases List.mem_cons.mp h with rfl | hmem
    · exact mem_keys_accIncome_mono t _ _ ((mem_keys_mapSet _ _ _ _).mpr (Or.inr rfl))
    · exact ih _ _ hmem

lemma mem_keys_accExpense_rec (l : List Expense) : ∀ (m : List (Nat × Bucket)) (r : Expense),
    r ∈ l → monthKeyOf r.date ∈ keysOf (accExpense m l) := by
  induction l with
  | nil => intro m r h; cases h
  | cons r' t ih =>
    intro m r h
    rw [accExpense_cons]
    rcases List.mem_cons.mp h with rfl | hmem
    · exact mem_keys_accExpense_mono t _ _ ((mem_keys_mapSet _ _ _ _).mpr (Or.inr rfl))
    · exact ih _ _ hmem

lemma bucketAt_initBuckets (s e : CalDate) (k : Nat) :
    bucketAt (initBuckets s e) k = ⟨0, 0⟩ := by
  unfold bucketAt
  cases hget : mapGet (initBuckets s e) k with
  | none => rfl
  | some b =>
    have hmem := mem_of_mapGet_some _ _ _ hget
    have := seedLoopF_values _ s e [] (by intro p hp; cases hp) (k, b) hmem
    simpa using this

lemma nodup_keys_initBuckets (s e : CalDate) : (keysOf (initBuckets s e)).Nodup :=
  seedLoopF_nodup _ s e [] (by simp [keysOf])

lemma bucketAt_final (s e : CalDate) (incomeData : List Income) (expenseData : List Expense)
    (k : Nat) :
    bucketAt (accExpense (accIncome (initBuckets s e) incomeData) expenseData) k
      = ⟨incomeSumAt k incomeData, expenseSumAt k expenseData⟩ := by
  rw [bucketAt_accExpense, bucketAt_accIncome, bucketAt_initBuckets]
  simp

lemma mem_monthlyData_iff (s e : CalDate) (incomeData : List Income)
    (expenseData : List Expense) (p : Nat × Bucket) :
    p ∈ monthlyData s e incomeData expenseData
      ↔ p ∈ accExpense (accIncome (initBuckets s e) incomeData) expenseData := by
  exact (List.mergeSort_perm _ _).mem_iff

/-- C2 amended: the bucket seeding starts at `startDate` and repeatedly
advances one JS calendar month (day-of-month preserved, overflowing into
the following month when too large) while the current date is at most
`endDate`.  When `startDate` is the first of its month this seeds exactly
one zero bucket per calendar month from `startDate`'s month through
`endDate`'s month inclusive (hence `endMonth - startMonth + 1` buckets);
for every valid range there is at least one bucket; each resulting
bucket's totals equal the sums of the amounts of the records whose
`YYYY-MM` matches its key; and `monthlyData` is sorted ascending by month
key. -/
theorem monthlyData_amended (s e : CalDate) (incomeData : List Income)
    (expenseData : List Expense) :
    (ValidDate e → 1 ≤ s.month → s.month ≤ 12 → s.day = 1 →
        keysOf (initBuckets s e)
          = List.range' (monthKeyOf s) (monthKeyOf e + 1 - monthKeyOf s)
        ∧ ∀ p ∈ initBuckets s e, p.2 = (⟨0, 0⟩ : Bucket))
    ∧ (ValidDate s → ValidDate e → s ≤ e → monthlyData s e incomeData expenseData ≠ [])
    ∧ (∀ k b, (k, b) ∈ monthlyData s e incomeData expenseData →
        b.income = incomeSumAt k incomeData ∧ b.expenses = expenseSumAt k expenseData)
    ∧ (monthlyData s e incomeData expenseData).Pairwise (fun p q => p.1 ≤ q.1) := by
  refine ⟨?_, ?_, ?_, ?_⟩
  · intro he hm1 hm12 hd1
    constructor
    · obtain ⟨y, m, d⟩ := s
      simp only at hm1 hm12 hd1
      subst hd1
      unfold initBuckets
      have h := seedLoopF_day1_keys (monthKeyOf e + 1 - monthKeyOf ⟨y, m, 1⟩) y m e []
        hm1 hm12 he.2.1 he.2.2.1 he.2.2.2.1 rfl (by intro j hj; simp [keysOf] at hj)
      simpa [keysOf] using h
    · intro p hp
      exact seedLoopF_values _ s e [] (by intro q hq; cases hq) p hp
  · intro hs he hle hnil
    have hkle : monthKeyOf s ≤ monthKeyOf e :=
      monthKeyOf_le_of_le s e hs.2.2.1 he.2.1 hle
    have h1 : 1 ≤ (initBuckets s e).length := by
      unfold initBuckets
      obtain ⟨n, hn⟩ : ∃ n, monthKeyOf e + 1 - monthKeyOf s = n + 1 :=
        ⟨monthKeyOf e - monthKeyOf s, by omega⟩
      rw [hn]
      show 1 ≤ (seedLoopF (n + 1) s e []).length
      unfold seedLoopF
      rw [if_pos hle]
      refine Nat.le_trans ?_ (seedLoopF_length_ge n _ _ _)
      rw [show mapSet [] (monthKeyOf s) (⟨0, 0⟩ : Bucket) = [(monthKeyOf s, ⟨0, 0⟩)] from by
        simp [mapSet]]
      exact Nat.le_refl 1
    have h2 : (monthlyData s e incomeData expenseData).length
        = (accExpense (accIncome (initBuckets s e) incomeData) expenseData).length := by
      unfold monthlyData
      exact List.length_mergeSort _
    have h3 := length_accIncome_ge incomeData (initBuckets s e)
    have h4 := length_accExpense_ge expenseData (accIncome (initBuckets s e) incomeData)
    have h5 : (monthlyData s e incomeData expenseData).length = 0 := by
      rw [hnil]; rfl
    omega
  · intro k b hmem
    have hmem' := (mem_monthlyData_iff s e incomeData expenseData (k, b)).mp hmem
    have hnodup := nodup_keys_accExpense expenseData _
      (nodup_keys_accIncome incomeData _ (nodup_keys_initBuckets s e))
    have hget := mapGet_eq_of_mem _ k b hnodup hmem'
    have hat : bucketAt (accExpense (accIncome (initBuckets s e) incomeData) expenseData) k
        = b := by
      unfold bucketAt
      rw [hget]
      rfl
    rw [bucketAt_final] at hat
    rw [← hat]
    exact ⟨rfl, rfl⟩
  · unfold monthlyData
    refine List.Pairwise.imp ?_
      (List.sorted_mergeSort ?_ ?_
        (accExpense (accIncome (initBuckets s e) incomeData) expenseData))
    · intro a b h
      simpa using h
    · intro a b c h1 h2
      simp only [decide_eq_true_eq] at h1 h2 ⊢
      omega
    · intro a b
      simp only [Bool.or_eq_true, decide_eq_true_eq]
      omega

/-- Witness: on the range 2024-01-01 .. 2024-02-15 the seeding yields the
two month keys for January and February 2024 with zero totals, and the
aggregated monthly data is nonempty. -/
theorem monthlyData_amended_witness :
    keysOf (initBuckets ⟨2024, 1, 1⟩ ⟨2024, 2, 15⟩)
        = List.range' (monthKeyOf ⟨2024, 1, 1⟩)
            (monthKeyOf ⟨2024, 2, 15⟩ + 1 - monthKeyOf ⟨2024, 1, 1⟩)
    ∧ monthlyData ⟨2024, 1, 1⟩ ⟨2024, 2, 15⟩ [] [] ≠ [] := by
  have h := monthlyData_amended ⟨2024, 1, 1⟩ ⟨2024, 2, 15⟩ [] []
  exact ⟨(h.1 (by decide) (by decide) (by decide) rfl).1,
    h.2.1 (by decide) (by decide) (by decide)⟩

/-- Counterexample to C2 as stated: for the range 2024-01-15 .. 2024-03-10
(start at most end) the seeding produces only the buckets for January and
February — the advancing date 2024-03-15 already exceeds the end date, so
March is missed — hence 2 buckets instead of the claimed
`endMonth - startMonth + 1 = 3`. -/
theorem monthlyData_count_counterexample :
    (⟨2024, 1, 15⟩ : CalDate) ≤ ⟨2024, 3, 10⟩
    ∧ (monthlyData ⟨2024, 1, 15⟩ ⟨2024, 3, 10⟩ [] []).length
        ≠ monthKeyOf ⟨2024, 3, 10⟩ - monthKeyOf ⟨2024, 1, 15⟩ + 1 := by
  constructor
  · decide
  · have h2 : (monthlyData ⟨2024, 1, 15⟩ ⟨2024, 3, 10⟩ [] []).length
        = (accExpense (accIncome (initBuckets ⟨2024, 1, 15⟩ ⟨2024, 3, 10⟩) []) []).length := by
      unfold monthlyData
      exact List.length_mergeSort _
    rw [h2]
    decide

/-- C3 amended: a record whose `YYYY-MM` matches no pre-seeded bucket is
not dropped: the `Map.get(...) || {income: 0, expenses: 0}` fallback
followed by `Map.set` creates a bucket for its month, so every record's
month key appears in `monthlyData` with totals covering that record's
amount. -/
theorem record_month_always_bucketed (s e : CalDate) (incomeData : List Income)
    (expenseData : List Expense) :
    (∀ r ∈ incomeData, ∃ b,
        (monthKeyOf r.date, b) ∈ monthlyData s e incomeData expenseData
        ∧ b.income = incomeSumAt (monthKeyOf r.date) incomeData)
    ∧ (∀ r ∈ expenseData, ∃ b,
        (monthKeyOf r.date, b) ∈ monthlyData s e incomeData expenseData
        ∧ b.expenses = expenseSumAt (monthKeyOf r.date) expenseData) := by
  constructor
  · intro r hr
    have hk : monthKeyOf r.date
        ∈ keysOf (accExpense (accIncome (initBuckets s e) incomeData) expenseData) :=
      mem_keys_accExpense_mono expenseData _ _ (mem_keys_accIncome_rec incomeData _ r hr)
    rcases mapGet_isSome_of_mem_keys _ _ hk with ⟨b, hb⟩
    refine ⟨b, (mem_monthlyData_iff s e incomeData expenseData _).mpr
      (mem_of_mapGet_some _ _ _ hb), ?_⟩
    have : bucketAt (accExpense (accIncome (initBuckets s e) incomeData) expenseData)
        (monthKeyOf r.date) = b := by
      unfold bucketAt
      rw [hb]
      rfl
    rw [bucketAt_final] at this
    rw [← this]
  · intro r hr
    have hk : monthKeyOf r.date
        ∈ keysOf (accExpense (accIncome (initBuckets s e) incomeData) expenseData) :=
      mem_keys_accExpense_rec expenseData _ r hr
    rcases mapGet_isSome_of_mem_keys _ _ hk with ⟨b, hb⟩
    refine ⟨b, (mem_monthlyData_iff s e incomeData expenseData _).mpr
      (mem_of_mapGet_some _ _ _ hb), ?_⟩
    have : bucketAt (accExpense (accIncome (initBuckets s e) incomeData) expenseData)
        (monthKeyOf r.date) = b := by
      unfold bucketAt
      rw [hb]
      rfl
    rw [bucketAt_final] at this
    rw [← this]

/-- Witness: one December-2023 income record aggregated over the
January-2024 range ends up in a bucket of its own. -/
theorem record_month_always_bucketed_witness :
    ∃ b, (monthKeyOf (⟨2023, 12, 15⟩ : CalDate), b)
        ∈ monthlyData ⟨2024, 1, 1⟩ ⟨2024, 1, 31⟩
            [⟨"i1", "c1", ⟨2023, 12, 15⟩, 100, "d1", "RENTAL"⟩] []
      ∧ b.income = incomeSumAt (monthKeyOf (⟨2023, 12, 15⟩ : CalDate))
            [⟨"i1", "c1", ⟨2023, 12, 15⟩, 100, "d1", "RENTAL"⟩] := by
  exact (record_month_always_bucketed ⟨2024, 1, 1⟩ ⟨2024, 1, 31⟩
    [⟨"i1", "c1", ⟨2023, 12, 15⟩, 100, "d1", "RENTAL"⟩] []).1
    ⟨"i1", "c1", ⟨2023, 12, 15⟩, 100, "d1", "RENTAL"⟩ (List.mem_singleton.mpr rfl)

/-- Counterexample to C3 as stated: a December-2023 income record of
amount 100 aggregated over the range 2024-01-01 .. 2024-01-31 is not
dropped — `monthlyData` contains a freshly created December bucket holding
its amount, although December is not among the pre-seeded keys. -/
theorem silent_drop_counterexample :
    (monthKeyOf (⟨2023, 12, 15⟩ : CalDate), (⟨100, 0⟩ : Bucket))
        ∈ monthlyData ⟨2024, 1, 1⟩ ⟨2024, 1, 31⟩
            [⟨"i1", "c1", ⟨2023, 12, 15⟩, 100, "d1", "RENTAL"⟩] []
    ∧ monthKeyOf (⟨2023, 12, 15⟩ : CalDate)
        ∉ keysOf (initBuckets ⟨2024, 1, 1⟩ ⟨2024, 1, 31⟩) := by
  constructor
  · rw [mem_monthlyData_iff]
    have hk : monthKeyOf (⟨2023, 12, 15⟩ : CalDate)
        ∈ keysOf (accExpense (accIncome (initBuckets ⟨2024, 1, 1⟩ ⟨2024, 1, 31⟩)
            [⟨"i1", "c1", ⟨2023, 12, 15⟩, 100, "d1", "RENTAL"⟩]) []) :=
      mem_keys_accExpense_mono [] _ _
        (mem_keys_accIncome_rec _ _ _ (List.mem_singleton.mpr rfl))
    rcases mapGet_isSome_of_mem_keys _ _ hk with ⟨b, hb⟩
    have h1 : bucketAt (accExpense (accIncome (initBuckets ⟨2024, 1, 1⟩ ⟨2024, 1, 31⟩)
        [⟨"i1", "c1", ⟨2023, 12, 15⟩, 100, "d1", "RENTAL"⟩]) [])
        (monthKeyOf (⟨2023, 12, 15⟩ : CalDate)) = b := by
      unfold bucketAt
      rw [hb]
      rfl
    rw [bucketAt_final] at h1
    have hbv : b = ⟨100, 0⟩ := by
      rw [← h1]
      have hinc : incomeSumAt (monthKeyOf (⟨2023, 12, 15⟩ : CalDate))
          [⟨"i1", "c1", ⟨2023, 12, 15⟩, 100, "d1", "RENTAL"⟩] = 100 := by
        simp [incomeSumAt]
      have hexp : expenseSumAt (monthKeyOf (⟨2023, 12, 15⟩ : CalDate))
          ([] : List Expense) = 0 := by
        simp [expenseSumAt]
      rw [hinc, hexp]
    rw [← hbv]
    exact mem_of_mapGet_some _ _ _ hb
  · decide

/- Date range state (dashboard lines 271-274, 392-399, 401-440). -/

structure DateRange where
  startDate : CalDate
  endDate : CalDate
deriving DecidableEq, Repr

/-- `handleDateRangeChange` (dashboard lines 392-399): the returned pair is
the stored range after the call together with a flag telling whether the
`alert('End date cannot be before start date')` rejection was signalled. -/
def handleDateRangeChange (stored newRange : DateRange) : DateRange × Bool :=
  if newRange.endDate < newRange.startDate then (stored, true)
  else (newRange, false)

/-- Initial `dateRange` state (dashboard lines 271-274): one JS calendar
month before today through today. -/
def initialDateRange (today : CalDate) : DateRange :=
  ⟨jsSetMonthSub today 1, today⟩

/-- `handleReset` (dashboard lines 401-440): `startDate` defaults to today,
is replaced by the oldest income date whenever one exists, then by the
oldest expense date when that is strictly earlier; `endDate` is today. -/
def handleReset (oldestIncome oldestExpense : Option CalDate) (today : CalDate) : DateRange :=
  let s1 := match oldestIncome with
    | some d => d
    | none => today
  let s2 := match oldestExpense with
    | some d => if d < s1 then d else s1
    | none => s1
  ⟨s2, today⟩

lemma calDate_not_lt (a b : CalDate) : ¬ (b < a) ↔ a ≤ b := by
  show ¬ CalDate.lt b a ↔ CalDate.le a b
  unfold CalDate.lt CalDate.le
  omega

lemma calDate_le_of_lt {a b : CalDate} (h : a < b) : a ≤ b := by
  have h' : CalDate.lt a b := h
  show CalDate.le a b
  unfold CalDate.lt at h'
  unfold CalDate.le
  omega

lemma calDate_le_refl (a : CalDate) : a ≤ a := by
  show CalDate.le a a
  unfold CalDate.le
  omega

/-- C5: a requested range with end date strictly before start date is
rejected — the rejection is signalled and the stored range is returned
unchanged — while a requested range with start at most end is stored. -/
theorem handleDateRangeChange_spec (stored newRange : DateRange) :
    (newRange.endDate < newRange.startDate →
        handleDateRangeChange stored newRange = (stored, true))
    ∧ (newRange.startDate ≤ newRange.endDate →
        handleDateRangeChange stored newRange = (newRange, false)) := by
  constructor
  · intro h
    unfold handleDateRangeChange
    rw [if_pos h]
  · intro h
    unfold handleDateRangeChange
    rw [if_neg ((calDate_not_lt newRange.startDate newRange.endDate).mpr h)]

/-- Witness: a reversed request (2024-03-01 .. 2024-02-20) is rejected with
the stored range kept, and an ordered request is stored. -/
theorem handleDateRangeChange_spec_witness :
    handleDateRangeChange ⟨⟨2024, 1, 1⟩, ⟨2024, 2, 1⟩⟩ ⟨⟨2024, 3, 1⟩, ⟨2024, 2, 20⟩⟩
        = (⟨⟨2024, 1, 1⟩, ⟨2024, 2, 1⟩⟩, true)
    ∧ handleDateRangeChange ⟨⟨2024, 1, 1⟩, ⟨2024, 2, 1⟩⟩ ⟨⟨2024, 3, 1⟩, ⟨2024, 3, 10⟩⟩
        = (⟨⟨2024, 3, 1⟩, ⟨2024, 3, 10⟩⟩, false) :=
  ⟨(handleDateRangeChange_spec ⟨⟨2024, 1, 1⟩, ⟨2024, 2, 1⟩⟩ ⟨⟨2024, 3, 1⟩, ⟨2024, 2, 20⟩⟩).1
      (by decide),
   (handleDateRangeChange_spec ⟨⟨2024, 1, 1⟩, ⟨2024, 2, 1⟩⟩ ⟨⟨2024, 3, 1⟩, ⟨2024, 3, 10⟩⟩).2
      (by decide)⟩

/-- `setMonth(getMonth() - 1)` on a valid date lands on the previous month
with the day preserved, except that a day past the previous month's end
overflows back into the current month. -/
lemma jsSetMonthSub_one (y m d : Nat) (hy : 1 ≤ y) (hm1 : 1 ≤ m) (hm12 : m ≤ 12)
    (hdle : d ≤ daysInMonth y m) :
    jsSetMonthSub ⟨y, m, d⟩ 1
      = if 2 ≤ m then
          (if d ≤ daysInMonth y (m - 1) then ⟨y, m - 1, d⟩
            else ⟨y, m, d - daysInMonth y (m - 1)⟩)
        else ⟨y - 1, 12, d⟩ := by
  unfold jsSetMonthSub
  by_cases hm : 2 ≤ m
  · rw [if_pos hm]
    have h1 : (y * 12 + (m - 1) - 1) / 12 = y := by omega
    have h2 : (y * 12 + (m - 1) - 1) % 12 + 1 = m - 1 := by omega
    simp only
    rw [h1, h2]
    unfold normDay
    by_cases hov : d ≤ daysInMonth y (m - 1)
    · rw [if_pos hov, if_pos hov]
    · rw [if_neg hov, if_neg hov]
      have h3 : (y * 12 + (m - 1)) / 12 = y := by omega
      have h4 : (y * 12 + (m - 1)) % 12 + 1 = m := by omega
      simp only
      rw [h3, h4]
  · rw [if_neg hm]
    have hm1' : m = 1 := by omega
    subst hm1'
    have h1 : (y * 12 + (1 - 1) - 1) / 12 = y - 1 := by omega
    have h2 : (y * 12 + (1 - 1) - 1) % 12 + 1 = 12 := by omega
    simp only
    rw [h1, h2]
    unfold normDay
    have hd12 : d ≤ daysInMonth (y - 1) 12 := by
      have := daysInMonth_le_31 y 1
      have h31 : daysInMonth (y - 1) 12 = 31 := rfl
      omega
    rw [if_pos hd12]

/-- C6 amended: the `startDate ≤ endDate` invariant holds for the initial
range and is preserved by the date-range change handler, and the all-time
reset preserves it provided the oldest income date (when an income record
exists) is not in the future; a future-dated oldest income record breaks
it (see the counterexample). -/
theorem dateRange_invariant_amended (today : CalDate) (stored newRange : DateRange)
    (oldestIncome oldestExpense : Option CalDate) :
    (ValidDate today →
        (initialDateRange today).startDate ≤ (initialDateRange today).endDate)
    ∧ (stored.startDate ≤ stored.endDate →
        (handleDateRangeChange stored newRange).1.startDate
          ≤ (handleDateRangeChange stored newRange).1.endDate)
    ∧ ((∀ d, oldestIncome = some d → d ≤ today) →
        (handleReset oldestIncome oldestExpense today).startDate
          ≤ (handleReset oldestIncome oldestExpense today).endDate) := by
  refine ⟨?_, ?_, ?_⟩
  · intro hv
    obtain ⟨y, m, d⟩ := today
    unfold ValidDate at hv
    dsimp only at hv
    obtain ⟨hy, hm1, hm12, hd1, hdle⟩ := hv
    show jsSetMonthSub ⟨y, m, d⟩ 1 ≤ ⟨y, m, d⟩
    rw [jsSetMonthSub_one y m d hy hm1 hm12 hdle]
    by_cases hm : 2 ≤ m
    · rw [if_pos hm]
      by_cases hov : d ≤ daysInMonth y (m - 1)
      · rw [if_pos hov]
        show CalDate.le ⟨y, m - 1, d⟩ ⟨y, m, d⟩
        unfold CalDate.le
        dsimp only
        omega
      · rw [if_neg hov]
        show CalDate.le ⟨y, m, d - daysInMonth y (m - 1)⟩ ⟨y, m, d⟩
        unfold CalDate.le
        dsimp only
        omega
    · rw [if_neg hm]
      show CalDate.le ⟨y - 1, 12, d⟩ ⟨y, m, d⟩
      unfold CalDate.le
      dsimp only
      omega
  · intro hinv
    unfold handleDateRangeChange
    by_cases h : newRange.endDate < newRange.startDate
    · rw [if_pos h]
      exact hinv
    · rw [if_neg h]
      exact (calDate_not_lt newRange.startDate newRange.endDate).mp h
  · intro hoi
    cases oldestIncome with
    | none =>
      cases oldestExpense with
      | none => exact calDate_le_refl today
      | some de =>
        show (if de < today then de else today) ≤ today
        by_cases h : de < today
        · rw [if_pos h]
          exact calDate_le_of_lt h
        · rw [if_neg h]
          exact calDate_le_refl today
    | some di =>
      have hdi : di ≤ today := hoi di rfl
      cases oldestExpense with
      | none => exact hdi
      | some de =>
        show (if de < di then de else di) ≤ today
        by_cases h : de < di
        · rw [if_pos h]
          exact calDate_le_trans (calDate_le_of_lt h) hdi
        · rw [if_neg h]
          exact hdi

/-- Witness: the invariant holds for the initial range anchored at
2024-03-31 (where the JS one-month step overflows to 2024-03-02), for a
rejected out-of-order request, and for a reset with past-dated oldest
records. -/
theorem dateRange_invariant_amended_witness :
    (initialDateRange ⟨2024, 3, 31⟩).startDate ≤ (initialDateRange ⟨2024, 3, 31⟩).endDate
    ∧ (handleDateRangeChange ⟨⟨2024, 1, 1⟩, ⟨2024, 2, 1⟩⟩
          ⟨⟨2024, 4, 1⟩, ⟨2024, 3, 1⟩⟩).1.startDate
        ≤ (handleDateRangeChange ⟨⟨2024, 1, 1⟩, ⟨2024, 2, 1⟩⟩
            ⟨⟨2024, 4, 1⟩, ⟨2024, 3, 1⟩⟩).1.endDate
    ∧ (handleReset (some ⟨2024, 1, 10⟩) (some ⟨2023, 12, 5⟩) ⟨2024, 3, 31⟩).startDate
        ≤ (handleReset (some ⟨2024, 1, 10⟩) (some ⟨2023, 12, 5⟩) ⟨2024, 3, 31⟩).endDate := by
  have h := dateRange_invariant_amended ⟨2024, 3, 31⟩ ⟨⟨2024, 1, 1⟩, ⟨2024, 2, 1⟩⟩
    ⟨⟨2024, 4, 1⟩, ⟨2024, 3, 1⟩⟩ (some ⟨2024, 1, 10⟩) (some ⟨2023, 12, 5⟩)
  refine ⟨h.1 (by decide), h.2.1 (by decide), h.2.2 ?_⟩
  intro d hd
  simp only [Option.some.injEq] at hd
  subst hd
  decide

/-- Counterexample to C6 as stated: with a future-dated oldest income
record (2099-01-01) the all-time reset on 2024-06-15 stores
`startDate = 2099-01-01 > endDate = 2024-06-15`, so the reset does not
preserve the invariant. -/
theorem reset_invariant_counterexample :
    ¬ ((handleReset (some ⟨2099, 1, 1⟩) none ⟨2024, 6, 15⟩).startDate
        ≤ (handleReset (some ⟨2099, 1, 1⟩) none ⟨2024, 6, 15⟩).endDate) := by
  decide

/- Date-range preset resolver (dashboard lines 235-260).  Each branch
mutates a copy of today via `setDate` / `setMonth`; `setDate(1)` sets the
day to 1 in the date's current month, `setMonth(0)` moves to January of
the same year normalizing the day. -/

inductive Preset where
  | thisMonth
  | lastMonth
  | last3Months
  | thisYear
deriving DecidableEq, Repr

/-- `startDate.setMonth(0)`: January of the same year, day preserved up to
overflow normalization. -/
def jsSetMonthJan (dt : CalDate) : CalDate :=
  normDay dt.year 1 dt.day

def getDateRangePreset (preset : Preset) (today : CalDate) : DateRange :=
  match preset with
  | Preset.thisMonth => ⟨⟨today.year, today.month, 1⟩, today⟩
  | Preset.lastMonth =>
    let t := jsSetMonthSub today 1
    ⟨⟨t.year, t.month, 1⟩, today⟩
  | Preset.last3Months => ⟨jsSetMonthSub today 3, today⟩
  | Preset.thisYear =>
    let t := jsSetMonthJan today
    ⟨⟨t.year, t.month, 1⟩, today⟩

lemma jsSetMonthSub_three_high (y m d : Nat) (hm4 : 4 ≤ m) (hm12 : m ≤ 12)
    (hdle : d ≤ daysInMonth y (m - 3)) :
    jsSetMonthSub ⟨y, m, d⟩ 3 = ⟨y, m - 3, d⟩ := by
  unfold jsSetMonthSub
  have h1 : (y * 12 + (m - 1) - 3) / 12 = y := by omega
  have h2 : (y * 12 + (m - 1) - 3) % 12 + 1 = m - 3 := by omega
  dsimp only
  rw [h1, h2]
  unfold normDay
  rw [if_pos hdle]

lemma jsSetMonthSub_three_low (y m d : Nat) (hy : 1 ≤ y) (hm1 : 1 ≤ m) (hm3 : m ≤ 3)
    (hdle : d ≤ daysInMonth (y - 1) (m + 9)) :
    jsSetMonthSub ⟨y, m, d⟩ 3 = ⟨y - 1, m + 9, d⟩ := by
  unfold jsSetMonthSub
  have h1 : (y * 12 + (m - 1) - 3) / 12 = y - 1 := by omega
  have h2 : (y * 12 + (m - 1) - 3) % 12 + 1 = m + 9 := by omega
  dsimp only
  rw [h1, h2]
  unfold normDay
  rw [if_pos hdle]

/-- C7 amended: with a valid anchor date, `thisMonth` starts at the 1st of
the current month, `thisYear` at January 1st of the current year, and
every preset ends at today; `lastMonth` starts at the 1st of the previous
calendar month only when today's day-of-month fits in that month —
otherwise the JS `setMonth` overflow lands back in the current month and
the start is the 1st of the *current* month; `last3Months` moves three JS
calendar months back (day preserved when it fits the target month). -/
theorem getDateRangePreset_amended (today : CalDate) (hv : ValidDate today) :
    (getDateRangePreset Preset.thisMonth today).startDate = ⟨today.year, today.month, 1⟩
    ∧ (getDateRangePreset Preset.thisYear today).startDate = ⟨today.year, 1, 1⟩
    ∧ (getDateRangePreset Preset.lastMonth today).startDate
        = (if 2 ≤ today.month then
            (if today.day ≤ daysInMonth today.year (today.month - 1)
              then ⟨today.year, today.month - 1, 1⟩
              else ⟨today.year, today.month, 1⟩)
          else ⟨today.year - 1, 12, 1⟩)
    ∧ (4 ≤ today.month → today.day ≤ daysInMonth today.year (today.month - 3) →
        (getDateRangePreset Preset.last3Months today).startDate
          = ⟨today.year, today.month - 3, today.day⟩)
    ∧ (today.month ≤ 3 → today.day ≤ daysInMonth (today.year - 1) (today.month + 9) →
        (getDateRangePreset Preset.last3Months today).startDate
          = ⟨today.year - 1, today.month + 9, today.day⟩)
    ∧ (∀ p : Preset, (getDateRangePreset p today).endDate = today) := by
  obtain ⟨y, m, d⟩ := today
  unfold ValidDate at hv
  dsimp only at hv
  obtain ⟨hy, hm1, hm12, hd1, hdle⟩ := hv
  refine ⟨rfl, ?_, ?_, ?_, ?_, ?_⟩
  · show (⟨(jsSetMonthJan ⟨y, m, d⟩).year, (jsSetMonthJan ⟨y, m, d⟩).month, 1⟩ : CalDate)
        = ⟨y, 1, 1⟩
    have hjan : jsSetMonthJan ⟨y, m, d⟩ = ⟨y, 1, d⟩ := by
      unfold jsSetMonthJan normDay
      have hd31 : d ≤ daysInMonth y 1 := by
        have h31 : daysInMonth y 1 = 31 := rfl
        have := daysInMonth_le_31 y m
        omega
      rw [if_pos hd31]
    rw [hjan]
  · show (⟨(jsSetMonthSub ⟨y, m, d⟩ 1).year, (jsSetMonthSub ⟨y, m, d⟩ 1).month, 1⟩ : CalDate)
        = _
    rw [jsSetMonthSub_one y m d hy hm1 hm12 hdle]
    dsimp only
    by_cases hm : 2 ≤ m
    · rw [if_pos hm, if_pos hm]
      by_cases hov : d ≤ daysInMonth y (m - 1)
      · rw [if_pos hov, if_pos hov]
      · rw [if_neg hov, if_neg hov]
    · rw [if_neg hm, if_neg hm]
  · intro hm4 hdl
    show jsSetMonthSub ⟨y, m, d⟩ 3 = _
    exact jsSetMonthSub_three_high y m d hm4 hm12 hdl
  · intro hm3 hdl
    show jsSetMonthSub ⟨y, m, d⟩ 3 = _
    exact jsSetMonthSub_three_low y m d hy hm1 hm3 hdl
  · intro p
    cases p <;> rfl

/-- Witness: anchored at 2024-05-15, `thisMonth` starts 2024-05-01,
`lastMonth` starts 2024-04-01, `last3Months` starts 2024-02-15, and the
end date is today. -/
theorem getDateRangePreset_amended_witness :
    (getDateRangePreset Preset.thisMonth ⟨2024, 5, 15⟩).startDate = ⟨2024, 5, 1⟩
    ∧ (getDateRangePreset Preset.lastMonth ⟨2024, 5, 15⟩).startDate = ⟨2024, 4, 1⟩
    ∧ (getDateRangePreset Preset.last3Months ⟨2024, 5, 15⟩).startDate = ⟨2024, 2, 15⟩
    ∧ (getDateRangePreset Preset.thisYear ⟨2024, 5, 15⟩).endDate = ⟨2024, 5, 15⟩ := by
  have h := getDateRangePreset_amended ⟨2024, 5, 15⟩ (by decide)
  refine ⟨h.1, ?_, ?_, h.2.2.2.2.2 Preset.thisYear⟩
  · have h2 := h.2.2.1
    rw [if_pos (by decide), if_pos (by decide)] at h2
    exact h2
  · exact h.2.2.2.1 (by decide) (by decide)

/-- Counterexample to C7 as stated: anchored at 2024-03-31 the `lastMonth`
preset does not start at the 1st of the previous calendar month
(2024-02-01) — the JS `setMonth` overflow (Feb 31 → Mar 2) makes it start
at 2024-03-01 instead. -/
theorem preset_lastMonth_counterexample :
    (getDateRangePreset Preset.lastMonth ⟨2024, 3, 31⟩).startDate ≠ ⟨2024, 2, 1⟩
    ∧ (getDateRangePreset Preset.lastMonth ⟨2024, 3, 31⟩).startDate = ⟨2024, 3, 1⟩ := by
  constructor
  · decide
  · decide

/- SummaryData and the aggregation entry point (dashboard lines 281-386).
`fetchDashboardData` only calls `setSummaryData` after both range queries
succeed; a failure on either query jumps to the catch block, leaving the
previously stored summary in place. -/

structure SummaryData where
  totalIncome : ℚ
  totalExpenses : ℚ
  netProfit : ℚ
  recentTransactions : List Transaction
  monthlyData : List (Nat × Bucket)

/-- The aggregation performed once both fetches have succeeded. -/
def computeSummary (s e : CalDate) (incomeData : List Income)
    (expenseData : List Expense) : SummaryData :=
  ⟨totalIncome incomeData, totalExpenses expenseData,
   netProfit incomeData expenseData,
   recentTransactions incomeData expenseData,
   monthlyData s e incomeData expenseData⟩

/-- `fetchDashboardData`: the summary state after the call, given the two
query results (`none` = query error) and the previously stored summary. -/
def fetchDashboardData (incomeRes : Option (List Income))
    (expenseRes : Option (List Expense)) (s e : CalDate) (prior : SummaryData) :
    SummaryData :=
  match incomeRes, expenseRes with
  | some incomeData, some expenseData => computeSummary s e incomeData expenseData
  | _, _ => prior

/-- C8: if either the income fetch or the expense fetch fails, no
aggregation runs and the previously stored summary is retained unchanged;
only when both succeed is the summary recomputed, and then from both
collections. -/
theorem fetch_failure_retains_summary (incomeRes : Option (List Income))
    (expenseRes : Option (List Expense)) (s e : CalDate) (prior : SummaryData) :
    (incomeRes = none ∨ expenseRes = none →
        fetchDashboardData incomeRes expenseRes s e prior = prior)
    ∧ ∀ (incomeData : List Income) (expenseData : List Expense),
        fetchDashboardData (some incomeData) (some expenseData) s e prior
          = computeSummary s e incomeData expenseData := by
  constructor
  · rintro (rfl | rfl)
    · rfl
    · cases incomeRes <;> rfl
  · intro _ _
    rfl

/-- Witness: a failed income fetch leaves a concrete prior summary
untouched. -/
theorem fetch_failure_retains_summary_witness :
    fetchDashboardData none (some []) ⟨2024, 1, 1⟩ ⟨2024, 2, 1⟩ ⟨5, 3, 2, [], []⟩
      = ⟨5, 3, 2, [], []⟩ :=
  (fetch_failure_retains_summary none (some []) ⟨2024, 1, 1⟩ ⟨2024, 2, 1⟩
    ⟨5, 3, 2, [], []⟩).1 (Or.inl rfl)

/- Route-protection middleware (src/src/middleware.ts lines 41-61). -/

def protectedRoutes : List String := ["/dashboard", "/income", "/expenses"]

def authRoutes : List String := ["/login", "/signup"]

def isProtectedRoute (pathname : String) : Bool :=
  protectedRoutes.any (fun route => pathname.startsWith route)

def isAuthRoute (pathname : String) : Bool :=
  authRoutes.any (fun route => pathname.startsWith route)

inductive MwResult where
  | redirectLogin
  | redirectDashboard
  | next
deriving DecidableEq, Repr

/-- The middleware decision: a protected route without a session redirects
to `/login`, an auth route with a session redirects to `/dashboard`, and
everything else passes through. -/
def middleware (pathname : String) (session : Bool) : MwResult :=
  if isProtectedRoute pathname && !session then MwResult.redirectLogin
  else if isAuthRoute pathname && session then MwResult.redirectDashboard
  else MwResult.next

/-- C9: the middleware redirects to the login route exactly when the
request targets a protected path without a session, redirects to the
dashboard exactly when it targets an auth path with a session, and passes
every other request through. -/
theorem middleware_spec (pathname : String) (session : Bool) :
    (middleware pathname session = MwResult.redirectLogin
        ↔ isProtectedRoute pathname = true ∧ session = false)
    ∧ (middleware pathname session = MwResult.redirectDashboard
        ↔ isAuthRoute pathname = true ∧ session = true)
    ∧ (middleware pathname session = MwResult.next
        ↔ ¬ (isProtectedRoute pathname = true ∧ session = false)
          ∧ ¬ (isAuthRoute pathname = true ∧ session = true)) := by
  cases session <;>
    cases hp : isProtectedRoute pathname <;>
    cases ha : isAuthRoute pathname <;>
      simp [middleware, hp, ha]

/- Ledger-page form submission (src/src/app/expenses/page.tsx lines 50-76
and the income page, src/unnamed/part_000 lines 49-75). -/

structure LedgerForm where
  date : String
  amount : String
  description : String
  category : String
deriving DecidableEq, Repr

/-- The expense form's initial/reset state. -/
def expenseDefaultForm : LedgerForm := ⟨"", "", "", "MAINTENANCE"⟩

/-- The income form's initial/reset state. -/
def incomeDefaultForm : LedgerForm := ⟨"", "", "", "RENTAL"⟩

/-- `handleSubmit` on the expenses page: on success the rows returned by
the insert are prepended (`[...data, ...expenseEntries]`) and the form is
reset; on failure both the list and the form are unchanged. -/
def handleSubmitExpenses (res : Option (List Expense)) (entries : List Expense)
    (form : LedgerForm) : List Expense × LedgerForm :=
  match res with
  | some data => (data ++ entries, expenseDefaultForm)
  | none => (entries, form)

/-- `handleSubmit` on the income page. -/
def handleSubmitIncome (res : Option (List Income)) (entries : List Income)
    (form : LedgerForm) : List Income × LedgerForm :=
  match res with
  | some data => (data ++ entries, incomeDefaultForm)
  | none => (entries, form)

/-- C10: a successful submission prepends exactly the inserted records to
the displayed list and resets the form to its defaults; a failed insert
leaves both unchanged; and prepending does not re-sort — a date-descending
list can stop being date-descending after a successful submission. -/
theorem handleSubmit_spec :
    (∀ (data entries : List Expense) (form : LedgerForm),
        handleSubmitExpenses (some data) entries form
          = (data ++ entries, expenseDefaultForm))
    ∧ (∀ (entries : List Expense) (form : LedgerForm),
        handleSubmitExpenses none entries form = (entries, form))
    ∧ (∀ (data entries : List Income) (form : LedgerForm),
        handleSubmitIncome (some data) entries form
          = (data ++ entries, incomeDefaultForm))
    ∧ (∀ (entries : List Income) (form : LedgerForm),
        handleSubmitIncome none entries form = (entries, form))
    ∧ ∃ (data entries : List Expense) (form : LedgerForm),
        entries.Pairwise (fun a b => b.date ≤ a.date)
        ∧ ¬ ((handleSubmitExpenses (some data) entries form).1).Pairwise
            (fun a b : Expense => b.date ≤ a.date) := by
  refine ⟨fun _ _ _ => rfl, fun _ _ => rfl, fun _ _ _ => rfl, fun _ _ => rfl, ?_⟩
  refine ⟨[⟨"e1", "c1", ⟨2024, 1, 1⟩, 10, "d1", "MAINTENANCE"⟩],
    [⟨"e2", "c2", ⟨2024, 5, 1⟩, 20, "d2", "UTILITIES"⟩], expenseDefaultForm, ?_, ?_⟩
  · exact List.pairwise_singleton _ _
  · intro hp
    have hall := (List.pairwise_cons.mp hp).1
    have h2 := hall _ (List.mem_singleton.mpr rfl)
    revert h2
    decide
